import Mathlib

/-!
Verification development for the replication-directive manager
(`api/replication.go`).  The Go source is shallowly embedded below:
pure helpers become Lean functions, the network calls (`putJson`,
`del`, `getJson`) become oracle function parameters, and 32-bit
machine arithmetic is carried out on `Nat` with explicit reduction
modulo `2 ^ 32`.
-/

/-! ### MD5 (embedding of Go `crypto/md5` as used by `GenerateId`)

`GenerateId` calls Go's `crypto/md5`, an implementation of RFC 1321.
The digest is reproduced here over byte lists; the RFC test vectors
are checked further down. -/

set_option maxRecDepth 40000

def MOD32 : Nat := 4294967296

def md5Not (x : Nat) : Nat := (MOD32 - 1) - x % MOD32

def rotl32 (x n : Nat) : Nat := ((x <<< n) ||| (x >>> (32 - n))) % MOD32

def md5K : List Nat :=
  [0xd76aa478, 0xe8c7b756, 0x242070db, 0xc1bdceee,
   0xf57c0faf, 0x4787c62a, 0xa8304613, 0xfd469501,
   0x698098d8, 0x8b44f7af, 0xffff5bb1, 0x895cd7be,
   0x6b901122, 0xfd987193, 0xa679438e, 0x49b40821,
   0xf61e2562, 0xc040b340, 0x265e5a51, 0xe9b6c7aa,
   0xd62f105d, 0x02441453, 0xd8a1e681, 0xe7d3fbc8,
   0x21e1cde6, 0xc33707d6, 0xf4d50d87, 0x455a14ed,
   0xa9e3e905, 0xfcefa3f8, 0x676f02d9, 0x8d2a4c8a,
   0xfffa3942, 0x8771f681, 0x6d9d6122, 0xfde5380c,
   0xa4beea44, 0x4bdecfa9, 0xf6bb4b60, 0xbebfbc70,
   0x289b7ec6, 0xeaa127fa, 0xd4ef3085, 0x04881d05,
   0xd9d4d039, 0xe6db99e5, 0x1fa27cf8, 0xc4ac5665,
   0xf4292244, 0x432aff97, 0xab9423a7, 0xfc93a039,
   0x655b59c3, 0x8f0ccc92, 0xffeff47d, 0x85845dd1,
   0x6fa87e4f, 0xfe2ce6e0, 0xa3014314, 0x4e0811a1,
   0xf7537e82, 0xbd3af235, 0x2ad7d2bb, 0xeb86d391]

def md5S : List Nat :=
  [7, 12, 17, 22, 7, 12, 17, 22, 7, 12, 17, 22, 7, 12, 17, 22,
   5, 9, 14, 20, 5, 9, 14, 20, 5, 9, 14, 20, 5, 9, 14, 20,
   4, 11, 16, 23, 4, 11, 16, 23, 4, 11, 16, 23, 4, 11, 16, 23,
   6, 10, 15, 21, 6, 10, 15, 21, 6, 10, 15, 21, 6, 10, 15, 21]

def md5Step (M : List Nat) (st : Nat × Nat × Nat × Nat) (i : Nat) :
    Nat × Nat × Nat × Nat :=
  let a := st.1
  let b := st.2.1
  let c := st.2.2.1
  let d := st.2.2.2
  let f :=
    if i < 16 then (b &&& c) ||| (md5Not b &&& d)
    else if i < 32 then (d &&& b) ||| (md5Not d &&& c)
    else if i < 48 then b ^^^ c ^^^ d
    else c ^^^ (b ||| md5Not d)
  let g :=
    if i < 16 then i
    else if i < 32 then (5 * i + 1) % 16
    else if i < 48 then (3 * i + 5) % 16
    else (7 * i) % 16
  let f2 := (f + a + md5K.getD i 0 + M.getD g 0) % MOD32
  (d, (b + rotl32 f2 (md5S.getD i 0)) % MOD32, b, c)

def md5Block (st : Nat × Nat × Nat × Nat) (M : List Nat) :
    Nat × Nat × Nat × Nat :=
  let r := (List.range 64).foldl (md5Step M) st
  ((st.1 + r.1) % MOD32, (st.2.1 + r.2.1) % MOD32,
   (st.2.2.1 + r.2.2.1) % MOD32, (st.2.2.2 + r.2.2.2) % MOD32)

def padBytes (msg : List Nat) : List Nat :=
  let bitLen := (msg.length * 8) % (2 ^ 64)
  let padLen := (119 - msg.length % 64) % 64
  msg ++ 0x80 :: (List.replicate padLen 0 ++
    (List.range 8).map (fun i => (bitLen >>> (8 * i)) % 256))

def leWords : List Nat → List Nat
  | b0 :: b1 :: b2 :: b3 :: rest =>
      (b0 + b1 * 256 + b2 * 65536 + b3 * 16777216) :: leWords rest
  | _ => []

/-- Split a word list into 16-word (64-byte) blocks; MD5 padding makes the
length a multiple of 16, so the trailing `_` case never drops data here. -/
def chunkWords : List Nat → List (List Nat)
  | w0 :: w1 :: w2 :: w3 :: w4 :: w5 :: w6 :: w7 ::
    w8 :: w9 :: w10 :: w11 :: w12 :: w13 :: w14 :: w15 :: rest =>
      [w0, w1, w2, w3, w4, w5, w6, w7,
       w8, w9, w10, w11, w12, w13, w14, w15] :: chunkWords rest
  | _ => []

def wordLEBytes (w : Nat) : List Nat :=
  [w % 256, w / 256 % 256, w / 65536 % 256, w / 16777216 % 256]

def md5Bytes (msg : List Nat) : List Nat :=
  let blocks := chunkWords (leWords (padBytes msg))
  let st := blocks.foldl md5Block
    (0x67452301, 0xefcdab89, 0x98badcfe, 0x10325476)
  wordLEBytes st.1 ++ wordLEBytes st.2.1 ++
    wordLEBytes st.2.2.1 ++ wordLEBytes st.2.2.2

/-- UTF-8 encoding of a character, the byte view Go takes of a string
via `[]byte(...)`. -/
def utf8Bytes (c : Char) : List Nat :=
  let n := c.toNat
  if n < 0x80 then [n]
  else if n < 0x800 then
    [0xC0 ||| (n >>> 6), 0x80 ||| (n &&& 0x3F)]
  else if n < 0x10000 then
    [0xE0 ||| (n >>> 12), 0x80 ||| ((n >>> 6) &&& 0x3F),
     0x80 ||| (n &&& 0x3F)]
  else
    [0xF0 ||| (n >>> 18), 0x80 ||| ((n >>> 12) &&& 0x3F),
     0x80 ||| ((n >>> 6) &&& 0x3F), 0x80 ||| (n &&& 0x3F)]

def strBytes (s : String) : List Nat :=
  s.data.foldr (fun c acc => utf8Bytes c ++ acc) []

def hexDigit (n : Nat) : Char :=
  if n < 10 then Char.ofNat (48 + n) else Char.ofNat (87 + n)

/-- Two lowercase hex characters for one byte, as Go's `fmt.Sprintf`
verb `%x` prints each byte of a digest. -/
def byteHex (b : Nat) : List Char := [hexDigit (b / 16), hexDigit (b % 16)]

/-- Embedding of `fmt.Sprintf` with verb `%x` applied to the MD5 digest of
the UTF-8 bytes of `s`: the lowercase hexadecimal MD5 digest. -/
def md5hex (s : String) : String :=
  ⟨(md5Bytes (strBytes s)).foldr (fun b acc => byteHex b ++ acc) []⟩

theorem md5hex_rfc_vector_empty :
    md5hex "" = "d41d8cd98f00b204e9800998ecf8427e" := by decide

theorem md5hex_rfc_vector_a :
    md5hex "a" = "0cc175b9c0f1b6a831c399e269772661" := by decide

theorem md5hex_rfc_vector_abc :
    md5hex "abc" = "900150983cd24fb0d6963f7d28e17f72" := by decide

/-! ### Data model (embedding of the Go structs in `api/replication.go`) -/

/-- Modelled from the spec: the acting identity attached to submitted
directives ("user_ctx", an identity blob from `api/session`, whose source
is outside this repository's core file).  Its content is irrelevant to the
verified properties; a single string field stands for the blob. -/
structure UserCtx where
  blob : String := ""
deriving DecidableEq, Repr

/-- Modelled from the spec: the session returned by `GetSession`
(`api/session`), exposing the user context embedded into directives. -/
structure Session where
  userCtx : UserCtx := {}
deriving DecidableEq, Repr

/-- Modelled from the spec: a database descriptor from the database lister
(`api/database`), exposing at least a `Name`.  The Go field is a string
pointer that `ReplicateHost` dereferences; the dereferenced value is
modelled. -/
structure Database where
  Name : String
deriving DecidableEq, Repr

/-- Go struct `ReplicationConfig`.  Field defaults are the Go zero
values. -/
structure ReplicationConfig where
  ID : String := ""
  REV : String := ""
  Source : String := ""
  Target : String := ""
  Cancel : Bool := false
  CreateTarget : Bool := false
  Continuous : Bool := false
  userCtx : UserCtx := {}
  Push : Bool := false
deriving DecidableEq, Repr

/-- Go `func (r ReplicationConfig) hasId() bool`. -/
def ReplicationConfig.hasId (r : ReplicationConfig) : Bool :=
  r.ID != ""

/-- Go `func (r *ReplicationConfig) uniqueName() string`. -/
def ReplicationConfig.uniqueName (r : ReplicationConfig) : String :=
  r.Source ++ r.Target

/-- Go `func (r *ReplicationConfig) GenerateId()`: sets `ID` to the
`%x`-formatted MD5 digest of `uniqueName`.  The Go method mutates its
receiver; the updated record is returned. -/
def GenerateId (r : ReplicationConfig) : ReplicationConfig :=
  { r with ID := md5hex r.uniqueName }

/-- Go `func (r ReplicationConfig) path() string`. -/
def ReplicationConfig.path (r : ReplicationConfig) : String :=
  if r.REV = "" then "_replicator/" ++ r.ID
  else "_replicator/" ++ r.ID ++ "?rev=" ++ r.REV

/-- Go struct `Replicator`: a `ReplicationConfig` plus engine-assigned
fields. -/
structure Replicator extends ReplicationConfig where
  Owner : String := ""
  ReplicationId : String := ""
  ReplicationState : String := ""
  ReplicationStateTime : String := ""
deriving DecidableEq, Repr

/-- `replicator.path()` in Go resolves to the embedded
`ReplicationConfig.path`. -/
def Replicator.path (r : Replicator) : String :=
  r.toReplicationConfig.path

/-- Go `type Replicators map[string][]*Replicator`.  Go map iteration
order is unspecified; the model fixes it as an association list in key
insertion order, one deterministic choice among those the Go program can
exhibit. -/
abbrev Replicators := List (String × List Replicator)

/-- Go `func (r Replicators) findById(id string) (*Replicator, bool)`:
linear scan across all groups, first match wins. -/
def Replicators.findById : Replicators → String → Option Replicator
  | [], _ => none
  | (_, reps) :: rest, id =>
    match reps.find? (fun rep => rep.ID == id) with
    | some rep => some rep
    | none => Replicators.findById rest id

/-- Go `func (r *Replicators) add(replicator Replicator)`: append to the
slice stored under the replicator's `ReplicationId` key. -/
def Replicators.add : Replicators → Replicator → Replicators
  | [], rep => [(rep.ReplicationId, [rep])]
  | (k, l) :: rest, rep =>
    if k = rep.ReplicationId then (k, l ++ [rep]) :: rest
    else (k, l) :: Replicators.add rest rep

/-- All replicators registered across all groups, in group order — the
sequence Go's nested `for` loops traverse. -/
def allReplicators (r : Replicators) : List Replicator :=
  (r.map (fun g => g.2)).flatten

/-- One row of the `_all_docs` listing (Go anonymous struct inside
`replicatorDocs`): document id plus full document body. -/
structure DocRow where
  Id : String
  doc : Replicator
deriving DecidableEq, Repr

/-- Go struct `replicatorDocs`: parsed body of
`_replicator/_all_docs?include_docs=true`. -/
structure replicatorDocs where
  TotalRows : Int := 0
  Offset : Int := 0
  Rows : List DocRow := []
deriving DecidableEq, Repr

/-- Go `func (r replicatorDocs) Replicators() *Replicators`: skip rows
whose id is nonempty and starts with the ignored prefix byte, group the
rest by `ReplicationId`. -/
def replicatorDocs.Replicators (docs : replicatorDocs) : Replicators :=
  docs.Rows.foldl
    (fun acc row =>
      if 0 < row.Id.length ∧ row.Id.front = '_' then acc
      else Replicators.add acc row.doc)
    []

/-! ### Operations

The HTTP layer is abstracted as oracle functions: `put` (issue a PUT of a
directive body at a path, `none` = success, `some e` = transport/store
error), `del` (issue a DELETE at a path), `fetch` (GET a replicator
document by id, as `GetReplicator` does).  `GetDatabases`,
`GetReplicators` and `GetSession` results are taken as inputs — the
claims under verification concern behaviour after those fetches
succeed. -/

/-- Go `func (c Couchdb) Replicate(conf ReplicationConfig) error`.
The JSON body is marshalled from `conf` before the missing-id check, so
the submitted body is the entry-time `conf`; the PUT path uses the
(possibly freshly generated) id.  `json.Marshal` cannot fail on this
struct, so marshalling is total here.  The issued request
`(path, body)` is returned alongside the oracle's verdict. -/
def Replicate (put : String → ReplicationConfig → Option ε)
    (conf : ReplicationConfig) : (String × ReplicationConfig) × Option ε :=
  let body := conf
  let conf := if conf.hasId then conf else GenerateId conf
  ((conf.path, body), put conf.path body)

/-- The non-database inputs of `ReplicateHost`, gathered: the PUT oracle,
the remote host's database locator `remoteUrl` (Go `remoteCouch.url`,
defined outside this file's source; modelled from the spec as an
arbitrary locator function), the local session's user context, the local
host's registry (`GetReplicators` result), and the configuration
template. -/
structure ReconEnv (ε : Type) where
  put : String → ReplicationConfig → Option ε
  remoteUrl : String → String
  sess : UserCtx
  registry : Replicators
  conf : ReplicationConfig

/-- The per-database desired directive `ReplicateHost` builds before the
registry lookup: source/target chosen by the push flag, user context
from the session, id regenerated. -/
def desiredConf (env : ReconEnv ε) (dbName : String) : ReplicationConfig :=
  let c := env.conf
  let c :=
    if c.Push then { c with Source := dbName, Target := env.remoteUrl dbName }
    else { c with Source := env.remoteUrl dbName, Target := dbName }
  GenerateId { c with userCtx := env.sess }

/-- Outcome of one iteration of the `ReplicateHost` loop for one
database. -/
inductive Disposition (ε : Type) where
  | panic : Disposition ε
  | skipped : Disposition ε
  | failed : (String × ReplicationConfig) → ε → Disposition ε
  | submitted : (String × ReplicationConfig) → Disposition ε
deriving DecidableEq, Repr

/-- The registry-merge step of the `ReplicateHost` loop: look the desired
directive's id up in the registry; a `triggered` record means skip
(`none`), a found non-triggered record donates its revision, a missing
record means empty revision. -/
def mergedConf (env : ReconEnv ε) (dbName : String) : Option ReplicationConfig :=
  let c0 := desiredConf env dbName
  match Replicators.findById env.registry c0.ID with
  | some ex =>
    if ex.ReplicationState = "triggered" then none
    else some { c0 with REV := ex.REV }
  | none => some { c0 with REV := "" }

/-- The body of the `ReplicateHost` loop for one database, in source
order: dereference and index the name (Go `dbName[0]` panics on an empty
name — modelled as `panic`), skip ignored-prefix names, build the
desired directive, merge with the registry via `mergedConf`, and submit
via `Replicate`. -/
def dbStep (env : ReconEnv ε) (db : Database) : Disposition ε :=
  if db.Name = "" then .panic
  else if db.Name.front = '_' then .skipped
  else
    match mergedConf env db.Name with
    | none => .skipped
    | some c =>
      match Replicate env.put c with
      | (req, some e) => .failed req e
      | (req, none) => .submitted req

/-- The `for _, db := range databases` loop of `ReplicateHost`.  Returns
`none` when an iteration panics (empty database name).  Otherwise
returns the databases appended to `replicatedDbs`, the trace of issued
PUT requests, and the error `ReplicateHost` returns (`some e` aborts the
loop at once, exactly as the Go early `return`). -/
def replicateHostLoop (env : ReconEnv ε) :
    List Database →
      Option (List Database × List (String × ReplicationConfig) × Option ε)
  | [] => some ([], [], none)
  | db :: rest =>
    match dbStep env db with
    | .panic => none
    | .skipped => replicateHostLoop env rest
    | .failed req e => some ([], [req], some e)
    | .submitted req =>
      match replicateHostLoop env rest with
      | none => none
      | some (ds, tr, er) => some (db :: ds, req :: tr, er)

/-- Go `masterCouch` selection in `ReplicateHost`: the database listing
comes from the local host on push, from the remote host on pull. -/
def masterDatabases (conf : ReplicationConfig) (localDbs remoteDbs : List Database) :
    List Database :=
  if conf.Push then localDbs else remoteDbs

/-- Go `func (c Couchdb) ReplicateHost(...) (*Databases, error)`, after
the three initial fetches (databases of the master host, local registry,
local session) have succeeded and been packed into `env` /
`localDbs` / `remoteDbs`. -/
def ReplicateHost (env : ReconEnv ε) (localDbs remoteDbs : List Database) :
    Option (List Database × List (String × ReplicationConfig) × Option ε) :=
  replicateHostLoop env (masterDatabases env.conf localDbs remoteDbs)

/-- Go `func (c Couchdb) DeleteReplicator(id string) error`: re-fetch the
document by id (`GetReplicator`), then DELETE at the fetched document's
path (which carries `?rev=` exactly when the fetched revision is
nonempty). -/
def DeleteReplicator (fetch : String → Except ε Replicator)
    (del : String → Option ε) (id : String) : Option ε :=
  match fetch id with
  | .error e => some e
  | .ok rep => del rep.path

/-- The nested deletion loops of `DeleteAllReplicators`: attempt each
replicator in traversal order, stop at the first failure.  Returns the
ids for which a deletion was attempted and the first error. -/
def deleteAllLoop (delOne : String → Option ε) :
    List Replicator → List String × Option ε
  | [] => ([], none)
  | rep :: rest =>
    match delOne rep.ID with
    | some e => ([rep.ID], some e)
    | none =>
      let p := deleteAllLoop delOne rest
      (rep.ID :: p.1, p.2)

/-- Go `func (c Couchdb) DeleteAllReplicators() (*Replicators, error)`,
after `GetReplicators` succeeded with `registry`.  The Go function
returns the full loaded registry in both the success and the failure
case; the attempted-deletion trace is exposed alongside. -/
def DeleteAllReplicators (fetch : String → Except ε Replicator)
    (del : String → Option ε) (registry : Replicators) :
    Replicators × List String × Option ε :=
  let p := deleteAllLoop (DeleteReplicator fetch del) (allReplicators registry)
  (registry, p.1, p.2)

/-! ### Shape of the generated identifier -/

theorem hexDigit_mem_alphabet :
    ∀ n, n < 16 → hexDigit n ∈ ("0123456789abcdef").data := by decide

theorem wordLEBytes_mem_lt (w : Nat) : ∀ b ∈ wordLEBytes w, b < 256 := by
  intro b hb
  simp only [wordLEBytes, List.mem_cons, List.not_mem_nil, or_false] at hb
  rcases hb with h | h | h | h <;> subst h <;> exact Nat.mod_lt _ (by norm_num)

theorem md5Bytes_mem_lt (msg : List Nat) : ∀ b ∈ md5Bytes msg, b < 256 := by
  intro b hb
  simp only [md5Bytes, List.mem_append, or_assoc] at hb
  rcases hb with h | h | h | h <;> exact wordLEBytes_mem_lt _ b h

theorem md5Bytes_length (msg : List Nat) : (md5Bytes msg).length = 16 := by
  simp [md5Bytes, wordLEBytes]

theorem hexFoldr_length (l : List Nat) :
    (l.foldr (fun b acc => byteHex b ++ acc) []).length = 2 * l.length := by
  induction l with
  | nil => simp
  | cons b rest ih =>
    rw [List.foldr_cons, List.length_append, ih]
    simp [byteHex]
    omega

theorem hexFoldr_mem (l : List Nat) (ch : Char)
    (h : ch ∈ l.foldr (fun b acc => byteHex b ++ acc) []) :
    ∃ b ∈ l, ch ∈ byteHex b := by
  induction l with
  | nil => simp at h
  | cons b rest ih =>
    simp only [List.foldr_cons, List.mem_append] at h
    rcases h with h | h
    · exact ⟨b, List.mem_cons_self b rest, h⟩
    · obtain ⟨b', hb', hch⟩ := ih h
      exact ⟨b', List.mem_cons_of_mem b hb', hch⟩

theorem md5hex_length (s : String) : (md5hex s).length = 32 := by
  show (md5hex s).data.length = 32
  simp only [md5hex]
  rw [hexFoldr_length, md5Bytes_length]

theorem md5hex_ne_empty (s : String) : md5hex s ≠ "" := by
  intro h
  have h32 := md5hex_length s
  rw [h] at h32
  simp at h32

theorem md5hex_lowercase (s : String) :
    ∀ ch ∈ (md5hex s).data, ch ∈ ("0123456789abcdef").data := by
  intro ch hch
  simp only [md5hex] at hch
  obtain ⟨b, hb, hbh⟩ := hexFoldr_mem _ ch hch
  have hblt : b < 256 := md5Bytes_mem_lt _ b hb
  simp only [byteHex, List.mem_cons, List.not_mem_nil, or_false] at hbh
  rcases hbh with h | h <;> subst h
  · exact hexDigit_mem_alphabet _ (Nat.div_lt_of_lt_mul (by omega))
  · exact hexDigit_mem_alphabet _ (Nat.mod_lt _ (by norm_num))

/-- Claim C3: `GenerateId` sets the directive id to the lowercase
hexadecimal MD5 digest of `Source ++ Target` (no separator); it is a pure
function, so two configurations with the same source and target receive
the identical id on every invocation, and the id is a 32-character string
over the lowercase hex alphabet. -/
theorem GenerateId_md5_deterministic (c c' : ReplicationConfig)
    (hs : c.Source = c'.Source) (ht : c.Target = c'.Target) :
    (GenerateId c).ID = md5hex (c.Source ++ c.Target)
    ∧ (GenerateId c).ID = (GenerateId c').ID
    ∧ ((GenerateId c).ID).length = 32
    ∧ ∀ ch ∈ ((GenerateId c).ID).data, ch ∈ ("0123456789abcdef").data := by
  refine ⟨by simp [GenerateId, ReplicationConfig.uniqueName], ?_, ?_, ?_⟩
  · simp [GenerateId, ReplicationConfig.uniqueName, hs, ht]
  · simp only [GenerateId]
    exact md5hex_length _
  · simp only [GenerateId]
    exact md5hex_lowercase _

/-- The spec's worked example pair, used to instantiate C3. -/
def inventoryConf : ReplicationConfig :=
  { Source := "inventory", Target := "https://remote.example/inventory" }

/-- The example pair again with an unrelated field changed, to witness
that the id depends only on source and target. -/
def inventoryConf2 : ReplicationConfig :=
  { inventoryConf with Continuous := true }

theorem GenerateId_md5_deterministic_witness :
    (GenerateId inventoryConf).ID =
      md5hex ("inventory" ++ "https://remote.example/inventory")
    ∧ (GenerateId inventoryConf).ID = (GenerateId inventoryConf2).ID
    ∧ ((GenerateId inventoryConf).ID).length = 32
    ∧ ∀ ch ∈ ((GenerateId inventoryConf).ID).data,
        ch ∈ ("0123456789abcdef").data :=
  GenerateId_md5_deterministic _ _ rfl rfl

/-- Claim C4, counterexample: the identifier is not order-sensitive for
every pair of distinct strings.  The id depends only on the concatenation
`Source ++ Target`, and `"a" ++ "aa" = "aa" ++ "a"`, so the distinct pair
`("a", "aa")` receives the same id in both orders. -/
def swapConfA : ReplicationConfig := { Source := "a", Target := "aa" }

def swapConfB : ReplicationConfig := { Source := "aa", Target := "a" }

theorem GenerateId_order_sensitivity_cex :
    ("a" : String) ≠ "aa"
    ∧ (GenerateId swapConfA).ID = (GenerateId swapConfB).ID :=
  ⟨by decide, rfl⟩

/-- Claim C4 as amended: the identifier depends only on the concatenation
`Source ++ Target`, so swapping source and target changes the id exactly
when it changes the concatenation's digest; pairs with commuting
concatenations (such as `("a", "aa")`) collide, while for ordinary pairs
such as `("A", "B")` the push and pull directions receive distinct
directive ids. -/
def pushConfAB : ReplicationConfig := { Source := "A", Target := "B" }

def pullConfBA : ReplicationConfig := { Source := "B", Target := "A" }

theorem GenerateId_order_dependence (c c' : ReplicationConfig)
    (h : c.Source ++ c.Target = c'.Source ++ c'.Target) :
    (GenerateId c).ID = (GenerateId c').ID
    ∧ (GenerateId pushConfAB).ID ≠ (GenerateId pullConfBA).ID := by
  constructor
  · simp [GenerateId, ReplicationConfig.uniqueName, h]
  · decide

def commuteConfA : ReplicationConfig := { Source := "x", Target := "yz" }

def commuteConfB : ReplicationConfig := { Source := "xy", Target := "z" }

theorem GenerateId_order_dependence_witness :
    (GenerateId commuteConfA).ID = (GenerateId commuteConfB).ID
    ∧ (GenerateId pushConfAB).ID ≠ (GenerateId pullConfBA).ID :=
  GenerateId_order_dependence commuteConfA commuteConfB rfl

/-! ### Basic facts about the loop building blocks -/

theorem GenerateId_hasId (c : ReplicationConfig) :
    (GenerateId c).hasId = true := by
  simp only [GenerateId, ReplicationConfig.hasId, bne_iff_ne, ne_eq]
  exact md5hex_ne_empty _

theorem Replicate_of_hasId (put : String → ReplicationConfig → Option ε)
    (c : ReplicationConfig) (h : c.hasId = true) :
    Replicate put c = ((c.path, c), put c.path c) := by
  simp [Replicate, h]

theorem mergedConf_spec (env : ReconEnv ε) (n : String) (c : ReplicationConfig)
    (h : mergedConf env n = some c) :
    (∃ ex, Replicators.findById env.registry (desiredConf env n).ID = some ex ∧
        ex.ReplicationState ≠ "triggered" ∧ c = { desiredConf env n with REV := ex.REV })
    ∨ (Replicators.findById env.registry (desiredConf env n).ID = none ∧
        c = { desiredConf env n with REV := "" }) := by
  simp only [mergedConf] at h
  split at h
  case h_1 ex hex =>
    split at h
    · exact absurd h (by simp)
    · left
      exact ⟨ex, hex, by assumption, (Option.some.injEq _ _).mp h.symm⟩
  case h_2 hnone =>
    right
    exact ⟨hnone, (Option.some.injEq _ _).mp h.symm⟩

theorem mergedConf_none_spec (env : ReconEnv ε) (n : String)
    (h : mergedConf env n = none) :
    ∃ ex, Replicators.findById env.registry (desiredConf env n).ID = some ex ∧
      ex.ReplicationState = "triggered" := by
  simp only [mergedConf] at h
  split at h
  case h_1 ex hex =>
    split at h
    · exact ⟨ex, hex, by assumption⟩
    · exact absurd h (by simp)
  case h_2 hnone => exact absurd h (by simp)

theorem mergedConf_ID (env : ReconEnv ε) (n : String) (c : ReplicationConfig)
    (h : mergedConf env n = some c) : c.ID = (desiredConf env n).ID := by
  rcases mergedConf_spec env n c h with ⟨ex, _, _, hc⟩ | ⟨_, hc⟩ <;> subst hc <;> rfl

theorem mergedConf_hasId (env : ReconEnv ε) (n : String) (c : ReplicationConfig)
    (h : mergedConf env n = some c) : c.hasId = true := by
  have hid := mergedConf_ID env n c h
  simp only [ReplicationConfig.hasId, bne_iff_ne, ne_eq, hid]
  simp only [desiredConf, GenerateId]
  exact md5hex_ne_empty _

theorem dbStep_panic_eq (env : ReconEnv ε) (db : Database)
    (h : db.Name = "") : dbStep env db = .panic := by
  simp [dbStep, h]

theorem dbStep_underscore_eq (env : ReconEnv ε) (db : Database)
    (h1 : db.Name ≠ "") (h2 : db.Name.front = '_') :
    dbStep env db = .skipped := by
  simp [dbStep, h1, h2]

theorem dbStep_eq_of_valid (env : ReconEnv ε) (db : Database)
    (h1 : db.Name ≠ "") (h2 : db.Name.front ≠ '_') :
    dbStep env db =
      match mergedConf env db.Name with
      | none => .skipped
      | some c =>
        match Replicate env.put c with
        | (req, some e) => Disposition.failed req e
        | (req, none) => Disposition.submitted req := by
  simp [dbStep, h1, h2]


theorem dbStep_ne_panic (env : ReconEnv ε) (db : Database)
    (h1 : db.Name ≠ "") : dbStep env db ≠ .panic := by
  intro hp
  unfold dbStep at hp
  split at hp
  · exact h1 (by assumption)
  · split at hp
    · exact absurd hp (by simp)
    · split at hp
      · exact absurd hp (by simp)
      · split at hp <;> exact absurd hp (by simp)

theorem dbStep_submitted_shape (env : ReconEnv ε) (db : Database)
    (req : String × ReplicationConfig)
    (h : dbStep env db = .submitted req) :
    db.Name ≠ "" ∧ db.Name.front ≠ '_' ∧
      ∃ c, mergedConf env db.Name = some c ∧ req = (c.path, c) ∧
        env.put c.path c = none := by
  unfold dbStep at h
  split at h
  · exact absurd h (by simp)
  · split at h
    · exact absurd h (by simp)
    · split at h
      · exact absurd h (by simp)
      case h_2 c hm =>
        refine ⟨by assumption, by assumption, c, hm, ?_⟩
        rw [Replicate_of_hasId env.put c (mergedConf_hasId env db.Name c hm)] at h
        split at h
        case h_1 req' e hrep => exact absurd h (by simp)
        case h_2 req' hrep =>
          injection h with hh
          refine ⟨?_, congrArg Prod.snd hrep⟩
          rw [← hh]
          exact (congrArg Prod.fst hrep).symm

theorem dbStep_failed_shape (env : ReconEnv ε) (db : Database)
    (req : String × ReplicationConfig) (e : ε)
    (h : dbStep env db = .failed req e) :
    db.Name ≠ "" ∧ db.Name.front ≠ '_' ∧
      ∃ c, mergedConf env db.Name = some c ∧ req = (c.path, c) ∧
        env.put c.path c = some e := by
  unfold dbStep at h
  split at h
  · exact absurd h (by simp)
  · split at h
    · exact absurd h (by simp)
    · split at h
      · exact absurd h (by simp)
      case h_2 c hm =>
        refine ⟨by assumption, by assumption, c, hm, ?_⟩
        rw [Replicate_of_hasId env.put c (mergedConf_hasId env db.Name c hm)] at h
        split at h
        case h_1 req' e' hrep =>
          injection h with hh1 hh2
          refine ⟨?_, ?_⟩
          · rw [← hh1]
            exact (congrArg Prod.fst hrep).symm
          · rw [← hh2]
            exact congrArg Prod.snd hrep
        case h_2 req' hrep => exact absurd h (by simp)

theorem dbStep_skipped_valid (env : ReconEnv ε) (db : Database)
    (h1 : db.Name ≠ "") (h2 : db.Name.front ≠ '_')
    (hs : dbStep env db = .skipped) :
    ∃ ex, Replicators.findById env.registry (desiredConf env db.Name).ID = some ex ∧
      ex.ReplicationState = "triggered" := by
  unfold dbStep at hs
  rw [if_neg h1, if_neg h2] at hs
  split at hs
  case h_1 hm => exact mergedConf_none_spec env db.Name hm
  case h_2 c hm =>
    rw [Replicate_of_hasId env.put c (mergedConf_hasId env db.Name c hm)] at hs
    split at hs <;> exact absurd hs (by simp)

/-! ### Facts about the reconciliation loop -/

theorem loop_total (env : ReconEnv ε) (dbs : List Database)
    (hne : ∀ db ∈ dbs, db.Name ≠ "") :
    ∃ out, replicateHostLoop env dbs = some out := by
  induction dbs with
  | nil => exact ⟨([], [], none), rfl⟩
  | cons db rest ih =>
    obtain ⟨out, hout⟩ := ih (fun d hd => hne d (List.mem_cons_of_mem db hd))
    have hdb : db.Name ≠ "" := hne db (List.mem_cons_self db rest)
    simp only [replicateHostLoop]
    cases hstep : dbStep env db with
    | panic => exact absurd hstep (dbStep_ne_panic env db hdb)
    | skipped => exact ⟨out, hout⟩
    | failed req e => exact ⟨([], [req], some e), rfl⟩
    | submitted req =>
      obtain ⟨ds, tr, er⟩ := out
      exact ⟨(db :: ds, req :: tr, er), by rw [hout]⟩

theorem loop_trace_origin (env : ReconEnv ε) (dbs ds : List Database)
    (tr : List (String × ReplicationConfig)) (er : Option ε)
    (h : replicateHostLoop env dbs = some (ds, tr, er)) :
    ∀ req ∈ tr, ∃ db ∈ dbs,
      (dbStep env db = .submitted req ∨ ∃ e, dbStep env db = .failed req e) := by
  induction dbs generalizing ds tr er with
  | nil =>
    simp only [replicateHostLoop, Option.some.injEq, Prod.mk.injEq] at h
    intro req hreq
    rw [← h.2.1] at hreq
    simp at hreq
  | cons db rest ih =>
    simp only [replicateHostLoop] at h
    split at h
    case h_1 heq => exact absurd h (by simp)
    case h_2 heq =>
      intro req hreq
      obtain ⟨db', hdb', hc⟩ := ih ds tr er h req hreq
      exact ⟨db', List.mem_cons_of_mem db hdb', hc⟩
    case h_3 req0 e heq =>
      simp only [Option.some.injEq, Prod.mk.injEq] at h
      intro req hreq
      rw [← h.2.1] at hreq
      simp only [List.mem_singleton] at hreq
      subst hreq
      exact ⟨db, List.mem_cons_self db rest, Or.inr ⟨e, heq⟩⟩
    case h_4 req0 heq =>
      rcases hrec : replicateHostLoop env rest with _ | ⟨ds', tr', er'⟩
      · rw [hrec] at h
        exact absurd h (by simp)
      · rw [hrec] at h
        have h' : (some (db :: ds', req0 :: tr', er') :
            Option (List Database × List (String × ReplicationConfig) × Option ε)) =
              some (ds, tr, er) := h
        simp only [Option.some.injEq, Prod.mk.injEq] at h'
        intro req hreq
        rw [← h'.2.1] at hreq
        rcases List.mem_cons.mp hreq with hreq | hreq
        · subst hreq
          exact ⟨db, List.mem_cons_self db rest, Or.inl heq⟩
        · obtain ⟨db', hdb', hc⟩ := ih ds' tr' er' hrec req hreq
          exact ⟨db', List.mem_cons_of_mem db hdb', hc⟩

theorem loop_processed_origin (env : ReconEnv ε) (dbs ds : List Database)
    (tr : List (String × ReplicationConfig)) (er : Option ε)
    (h : replicateHostLoop env dbs = some (ds, tr, er)) :
    ∀ db ∈ ds, db ∈ dbs ∧ ∃ req ∈ tr, dbStep env db = .submitted req := by
  induction dbs generalizing ds tr er with
  | nil =>
    simp only [replicateHostLoop, Option.some.injEq, Prod.mk.injEq] at h
    intro d hd
    rw [← h.1] at hd
    simp at hd
  | cons db rest ih =>
    simp only [replicateHostLoop] at h
    split at h
    case h_1 heq => exact absurd h (by simp)
    case h_2 heq =>
      intro d hd
      obtain ⟨hmem, req, hreq, hc⟩ := ih ds tr er h d hd
      exact ⟨List.mem_cons_of_mem db hmem, req, hreq, hc⟩
    case h_3 req0 e heq =>
      simp only [Option.some.injEq, Prod.mk.injEq] at h
      intro d hd
      rw [← h.1] at hd
      simp at hd
    case h_4 req0 heq =>
      rcases hrec : replicateHostLoop env rest with _ | ⟨ds', tr', er'⟩
      · rw [hrec] at h
        exact absurd h (by simp)
      · rw [hrec] at h
        have h' : (some (db :: ds', req0 :: tr', er') :
            Option (List Database × List (String × ReplicationConfig) × Option ε)) =
              some (ds, tr, er) := h
        simp only [Option.some.injEq, Prod.mk.injEq] at h'
        intro d hd
        rw [← h'.1] at hd
        rcases List.mem_cons.mp hd with hd | hd
        · subst hd
          refine ⟨List.mem_cons_self d rest, req0, ?_, heq⟩
          rw [← h'.2.1]
          exact List.mem_cons_self req0 tr'
        · obtain ⟨hmem, req, hreq, hc⟩ := ih ds' tr' er' hrec d hd
          refine ⟨List.mem_cons_of_mem db hmem, req, ?_, hc⟩
          rw [← h'.2.1]
          exact List.mem_cons_of_mem req0 hreq

theorem loop_coverage (env : ReconEnv ε) (dbs ds : List Database)
    (tr : List (String × ReplicationConfig))
    (h : replicateHostLoop env dbs = some (ds, tr, none)) :
    ∀ db ∈ dbs, dbStep env db = .skipped ∨
      ∃ req ∈ tr, dbStep env db = .submitted req := by
  induction dbs generalizing ds tr with
  | nil =>
    intro d hd
    simp at hd
  | cons db rest ih =>
    simp only [replicateHostLoop] at h
    split at h
    case h_1 heq => exact absurd h (by simp)
    case h_2 heq =>
      intro d hd
      rcases List.mem_cons.mp hd with hd | hd
      · subst hd
        exact Or.inl heq
      · exact ih ds tr h d hd
    case h_3 req0 e heq =>
      simp only [Option.some.injEq, Prod.mk.injEq] at h
      exact absurd h.2.2.symm (by simp)
    case h_4 req0 heq =>
      rcases hrec : replicateHostLoop env rest with _ | ⟨ds', tr', er'⟩
      · rw [hrec] at h
        exact absurd h (by simp)
      · rw [hrec] at h
        have h' : (some (db :: ds', req0 :: tr', er') :
            Option (List Database × List (String × ReplicationConfig) × Option ε)) =
              some (ds, tr, none) := h
        simp only [Option.some.injEq, Prod.mk.injEq] at h'
        intro d hd
        rcases List.mem_cons.mp hd with hd | hd
        · subst hd
          refine Or.inr ⟨req0, ?_, heq⟩
          rw [← h'.2.1]
          exact List.mem_cons_self req0 tr'
        · rcases ih ds' tr' (h'.2.2 ▸ hrec) d hd with hskip | ⟨req, hreq, hsub⟩
          · exact Or.inl hskip
          · refine Or.inr ⟨req, ?_, hsub⟩
            rw [← h'.2.1]
            exact List.mem_cons_of_mem req0 hreq

/-- Claim C1: once a directive's registered state is `triggered`,
a reconciliation run never issues a PUT whose body carries that id — the
database is skipped — so the directive's stored revision and body are
untouched by this system. -/
theorem ReplicateHost_triggered_never_submitted (env : ReconEnv ε)
    (localDbs remoteDbs ds : List Database)
    (tr : List (String × ReplicationConfig)) (er : Option ε)
    (id0 : String) (ex : Replicator)
    (hfound : Replicators.findById env.registry id0 = some ex)
    (htrig : ex.ReplicationState = "triggered")
    (hrun : ReplicateHost env localDbs remoteDbs = some (ds, tr, er)) :
    (∀ req ∈ tr, req.2.ID ≠ id0) ∧
      (∀ db ∈ ds, (desiredConf env db.Name).ID ≠ id0) := by
  unfold ReplicateHost at hrun
  constructor
  · intro req hreq hid
    obtain ⟨db, hdb, hc⟩ := loop_trace_origin env _ ds tr er hrun req hreq
    have hshape : ∃ c, mergedConf env db.Name = some c ∧ req = (c.path, c) := by
      rcases hc with hc | ⟨e, hc⟩
      · obtain ⟨_, _, c, hm, hr, _⟩ := dbStep_submitted_shape env db req hc
        exact ⟨c, hm, hr⟩
      · obtain ⟨_, _, c, hm, hr, _⟩ := dbStep_failed_shape env db req e hc
        exact ⟨c, hm, hr⟩
    obtain ⟨c, hm, hr⟩ := hshape
    have hdid : (desiredConf env db.Name).ID = id0 := by
      rw [← mergedConf_ID env db.Name c hm, ← hid, hr]
    rcases mergedConf_spec env db.Name c hm with ⟨ex', hfound', hnt, _⟩ | ⟨hnone, _⟩
    · rw [hdid, hfound] at hfound'
      injection hfound' with hexx
      exact hnt (hexx ▸ htrig)
    · rw [hdid, hfound] at hnone
      exact absurd hnone (by simp)
  · intro db hdb hid
    obtain ⟨hmem, req, hreq, hsub⟩ :=
      loop_processed_origin env _ ds tr er hrun db hdb
    obtain ⟨_, _, c, hm, _, _⟩ := dbStep_submitted_shape env db req hsub
    rcases mergedConf_spec env db.Name c hm with ⟨ex', hfound', hnt, _⟩ | ⟨hnone, _⟩
    · rw [hid, hfound] at hfound'
      injection hfound' with hexx
      exact hnt (hexx ▸ htrig)
    · rw [hid, hfound] at hnone
      exact absurd hnone (by simp)

/-- A registered replicator in `triggered` state whose id matches the
directive computed for database `adb` under `envW1`. -/
def w1trig : Replicator :=
  { ID := md5hex "adbu/adb", ReplicationState := "triggered" }

def envW1 : ReconEnv Nat where
  put := fun _ _ => none
  remoteUrl := fun n => "u/" ++ n
  sess := {}
  registry := [("", [w1trig])]
  conf := { Push := true }

def w1conf : ReplicationConfig := { desiredConf envW1 "bdb" with REV := "" }

def w1ds : List Database := [{ Name := "bdb" }]

def w1tr : List (String × ReplicationConfig) := [(w1conf.path, w1conf)]

theorem ReplicateHost_triggered_never_submitted_witness :
    (∀ req ∈ w1tr, req.2.ID ≠ md5hex "adbu/adb") ∧
      (∀ db ∈ w1ds, (desiredConf envW1 db.Name).ID ≠ md5hex "adbu/adb") :=
  ReplicateHost_triggered_never_submitted envW1
    [{ Name := "adb" }, { Name := "bdb" }] [] w1ds w1tr none
    (md5hex "adbu/adb") w1trig (by decide) rfl (by decide)

/-! ### Fail-fast submission (claim C2) -/

/-- The loop iteration for `db` ends in a failed submission. -/
def stepFails (env : ReconEnv ε) (db : Database) : Bool :=
  match dbStep env db with
  | .failed _ _ => true
  | _ => false

/-- The loop iteration for `db` ends in a successful submission. -/
def stepSubmits (env : ReconEnv ε) (db : Database) : Bool :=
  match dbStep env db with
  | .submitted _ => true
  | _ => false

/-- The PUT request the loop iteration for `db` issues, if any. -/
def stepReq (env : ReconEnv ε) (db : Database) :
    Option (String × ReplicationConfig) :=
  match dbStep env db with
  | .submitted req => some req
  | .failed req _ => some req
  | _ => none

theorem loop_all_ok (env : ReconEnv ε) (dbs : List Database)
    (hne : ∀ db ∈ dbs, db.Name ≠ "")
    (hok : ∀ db ∈ dbs, stepFails env db = false) :
    replicateHostLoop env dbs =
      some (dbs.filter (stepSubmits env), dbs.filterMap (stepReq env), none) := by
  induction dbs with
  | nil => rfl
  | cons db rest ih =>
    have hdb := hne db (List.mem_cons_self db rest)
    have ih' := ih (fun d hd => hne d (List.mem_cons_of_mem db hd))
      (fun d hd => hok d (List.mem_cons_of_mem db hd))
    simp only [replicateHostLoop]
    cases hstep : dbStep env db with
    | panic => exact absurd hstep (dbStep_ne_panic env db hdb)
    | skipped =>
      have hsub : stepSubmits env db = false := by simp [stepSubmits, hstep]
      have hrq : stepReq env db = none := by simp [stepReq, hstep]
      simp only [List.filter_cons, List.filterMap_cons, hsub, hrq, if_false,
        Bool.false_eq_true]
      exact ih'
    | failed req e =>
      exact absurd (hok db (List.mem_cons_self db rest))
        (by simp [stepFails, hstep])
    | submitted req =>
      have hsub : stepSubmits env db = true := by simp [stepSubmits, hstep]
      have hrq : stepReq env db = some req := by simp [stepReq, hstep]
      simp only [List.filter_cons, List.filterMap_cons, hsub, hrq, if_true]
      rw [ih']

theorem loop_failfast (env : ReconEnv ε) (pre : List Database) (d : Database)
    (post : List Database) (req : String × ReplicationConfig) (e : ε)
    (hne : ∀ x ∈ pre, x.Name ≠ "")
    (hpre : ∀ x ∈ pre, stepFails env x = false)
    (hd : dbStep env d = .failed req e) :
    replicateHostLoop env (pre ++ d :: post) =
      some (pre.filter (stepSubmits env),
        pre.filterMap (stepReq env) ++ [req], some e) := by
  induction pre with
  | nil => simp [replicateHostLoop, hd]
  | cons x pre' ih =>
    have hx := hne x (List.mem_cons_self x pre')
    have ih' := ih (fun y hy => hne y (List.mem_cons_of_mem x hy))
      (fun y hy => hpre y (List.mem_cons_of_mem x hy))
    simp only [List.cons_append, replicateHostLoop]
    cases hstep : dbStep env x with
    | panic => exact absurd hstep (dbStep_ne_panic env x hx)
    | skipped =>
      have hsub : stepSubmits env x = false := by simp [stepSubmits, hstep]
      have hrq : stepReq env x = none := by simp [stepReq, hstep]
      simp only [List.filter_cons, List.filterMap_cons, hsub, hrq, if_false,
        Bool.false_eq_true]
      exact ih'
    | failed r e' =>
      exact absurd (hpre x (List.mem_cons_self x pre'))
        (by simp [stepFails, hstep])
    | submitted r =>
      have hsub : stepSubmits env x = true := by simp [stepSubmits, hstep]
      have hrq : stepReq env x = some r := by simp [stepReq, hstep]
      simp only [List.filter_cons, List.filterMap_cons, hsub, hrq, if_true,
        List.append_eq]
      rw [ih']
      rfl

/-- Claim C2: if the submission for some database of the listing fails,
`ReplicateHost` stops at once and returns exactly the databases whose
submissions succeeded before it (skipped databases excluded) together
with the error, issuing exactly their requests plus the failing one — no
submission is attempted for any later database.  If no submission fails,
it returns every successfully submitted database with no error. -/
theorem ReplicateHost_failfast (env : ReconEnv ε)
    (localDbs remoteDbs dbs : List Database)
    (hsel : masterDatabases env.conf localDbs remoteDbs = dbs)
    (hne : ∀ db ∈ dbs, db.Name ≠ "") :
    ((∀ db ∈ dbs, stepFails env db = false) →
      ReplicateHost env localDbs remoteDbs =
        some (dbs.filter (stepSubmits env), dbs.filterMap (stepReq env), none))
    ∧ (∀ pre d post req e, dbs = pre ++ d :: post →
        (∀ x ∈ pre, stepFails env x = false) →
        dbStep env d = .failed req e →
        ReplicateHost env localDbs remoteDbs =
          some (pre.filter (stepSubmits env),
            pre.filterMap (stepReq env) ++ [req], some e)) := by
  unfold ReplicateHost
  rw [hsel]
  constructor
  · exact fun hok => loop_all_ok env dbs hne hok
  · intro pre d post req e hdbs hpre hd
    subst hdbs
    exact loop_failfast env pre d post req e
      (fun x hx => hne x (List.mem_append_left _ hx)) hpre hd

def envW2 : ReconEnv Nat where
  put := fun _ c => if c.Source = "c2b" then some 7 else none
  remoteUrl := fun n => "u/" ++ n
  sess := {}
  registry := []
  conf := { Push := true }

def w2fail : ReplicationConfig := { desiredConf envW2 "c2b" with REV := "" }

def w2pre : List Database := [{ Name := "c2a" }]

theorem ReplicateHost_failfast_witness :
    ReplicateHost envW2 [{ Name := "c2a" }, { Name := "c2b" }, { Name := "c2c" }] [] =
      some (w2pre.filter (stepSubmits envW2),
        w2pre.filterMap (stepReq envW2) ++ [(w2fail.path, w2fail)], some 7) :=
  (ReplicateHost_failfast envW2
      [{ Name := "c2a" }, { Name := "c2b" }, { Name := "c2c" }] []
      [{ Name := "c2a" }, { Name := "c2b" }, { Name := "c2c" }] rfl (by decide)).2
    w2pre { Name := "c2b" } [{ Name := "c2c" }] (w2fail.path, w2fail) 7 rfl
    (by decide) (by decide)

/-! ### Revision selection and addressing (claim C5) -/

theorem mergedConf_fields (env : ReconEnv ε) (n : String) (c : ReplicationConfig)
    (h : mergedConf env n = some c) :
    c.Source = (desiredConf env n).Source ∧ c.Target = (desiredConf env n).Target := by
  rcases mergedConf_spec env n c h with ⟨ex, _, _, hc⟩ | ⟨_, hc⟩ <;>
    subst hc <;> exact ⟨rfl, rfl⟩

/-- Claim C5 as amended: a submitted directive whose id is found in the
registry (not triggered) carries the found record's revision and is PUT
at `_replicator/id?rev=revision` when that stored revision is nonempty —
with an empty stored revision the address is plain `_replicator/id`,
the same shape as the create path; an id not found in the registry is
submitted with empty revision at `_replicator/id`. -/
theorem ReplicateHost_revision_selection (env : ReconEnv ε)
    (localDbs remoteDbs ds : List Database)
    (tr : List (String × ReplicationConfig)) (er : Option ε)
    (hrun : ReplicateHost env localDbs remoteDbs = some (ds, tr, er)) :
    ∀ req ∈ tr,
      (∃ ex, Replicators.findById env.registry req.2.ID = some ex ∧
          ex.ReplicationState ≠ "triggered" ∧ req.2.REV = ex.REV ∧
          req.1 = (if ex.REV = "" then "_replicator/" ++ req.2.ID
            else "_replicator/" ++ req.2.ID ++ "?rev=" ++ ex.REV))
      ∨ (Replicators.findById env.registry req.2.ID = none ∧ req.2.REV = "" ∧
          req.1 = "_replicator/" ++ req.2.ID) := by
  unfold ReplicateHost at hrun
  intro req hreq
  obtain ⟨db, hdb, hc⟩ := loop_trace_origin env _ ds tr er hrun req hreq
  have hshape : ∃ c, mergedConf env db.Name = some c ∧ req = (c.path, c) := by
    rcases hc with hc | ⟨e, hc⟩
    · obtain ⟨_, _, c, hm, hr, _⟩ := dbStep_submitted_shape env db req hc
      exact ⟨c, hm, hr⟩
    · obtain ⟨_, _, c, hm, hr, _⟩ := dbStep_failed_shape env db req e hc
      exact ⟨c, hm, hr⟩
  obtain ⟨c, hm, hr⟩ := hshape
  subst hr
  show (∃ ex, Replicators.findById env.registry c.ID = some ex ∧
      ex.ReplicationState ≠ "triggered" ∧ c.REV = ex.REV ∧
      c.path = (if ex.REV = "" then "_replicator/" ++ c.ID
        else "_replicator/" ++ c.ID ++ "?rev=" ++ ex.REV))
    ∨ (Replicators.findById env.registry c.ID = none ∧ c.REV = "" ∧
      c.path = "_replicator/" ++ c.ID)
  have hid := mergedConf_ID env db.Name c hm
  rcases mergedConf_spec env db.Name c hm with ⟨ex, hfound, hnt, hcc⟩ | ⟨hnone, hcc⟩
  · left
    refine ⟨ex, ?_, hnt, ?_, ?_⟩
    · rw [hid]
      exact hfound
    · subst hcc
      rfl
    · subst hcc
      by_cases hrev : ex.REV = "" <;>
        simp [ReplicationConfig.path, hrev]
  · right
    refine ⟨?_, ?_, ?_⟩
    · rw [hid]
      exact hnone
    · subst hcc
      rfl
    · subst hcc
      simp [ReplicationConfig.path]

/-- A registered record for database `c5d` whose stored revision is
empty — the input exposing the address edge case. -/
def w5ex : Replicator :=
  { ID := md5hex "c5du/c5d", REV := "", ReplicationState := "completed" }

def envW5 : ReconEnv Nat where
  put := fun _ _ => none
  remoteUrl := fun n => "u/" ++ n
  sess := {}
  registry := [("", [w5ex])]
  conf := { Push := true }

def w5conf : ReplicationConfig := { desiredConf envW5 "c5d" with REV := "" }

/-- Claim C5, counterexample: a found, non-triggered registry record with
an empty stored revision is resubmitted (update path) at an address with
no `?rev=` parameter at all — the address contains no `?` character —
contradicting "submitted at an address including `?rev=revision`". -/
theorem ReplicateHost_rev_address_cex :
    ReplicateHost envW5 [{ Name := "c5d" }] [] =
      some ([{ Name := "c5d" }], [(w5conf.path, w5conf)], none)
    ∧ Replicators.findById envW5.registry w5conf.ID = some w5ex
    ∧ w5ex.ReplicationState ≠ "triggered"
    ∧ w5conf.REV = w5ex.REV
    ∧ w5conf.path = "_replicator/" ++ w5conf.ID
    ∧ ∀ ch ∈ (w5conf.path).data, ch ≠ '?' := by decide

theorem ReplicateHost_revision_selection_witness :
    (∃ ex, Replicators.findById envW5.registry w5conf.ID = some ex ∧
        ex.ReplicationState ≠ "triggered" ∧ w5conf.REV = ex.REV ∧
        w5conf.path = (if ex.REV = "" then "_replicator/" ++ w5conf.ID
          else "_replicator/" ++ w5conf.ID ++ "?rev=" ++ ex.REV))
    ∨ (Replicators.findById envW5.registry w5conf.ID = none ∧ w5conf.REV = "" ∧
        w5conf.path = "_replicator/" ++ w5conf.ID) :=
  ReplicateHost_revision_selection envW5 [{ Name := "c5d" }] []
    [{ Name := "c5d" }] [(w5conf.path, w5conf)] none (by decide)
    (w5conf.path, w5conf) (List.mem_singleton.mpr rfl)

/-! ### Push/pull role assignment (claim C8) -/

theorem desiredConf_fields_push (env : ReconEnv ε) (n : String)
    (h : env.conf.Push = true) :
    (desiredConf env n).Source = n ∧ (desiredConf env n).Target = env.remoteUrl n := by
  simp [desiredConf, GenerateId, h]

theorem desiredConf_fields_pull (env : ReconEnv ε) (n : String)
    (h : env.conf.Push = false) :
    (desiredConf env n).Source = env.remoteUrl n ∧ (desiredConf env n).Target = n := by
  simp [desiredConf, GenerateId, h]

/-- Claim C8: the push flag fully determines host roles.  On push the
iterated listing is the local one and every issued directive has
`source = local database name`, `target = remote locator of that name`;
on pull the listing is the remote one and every issued directive has
`source = remote locator`, `target = local database name`. -/
theorem ReplicateHost_push_pull_roles (env : ReconEnv ε)
    (localDbs remoteDbs ds : List Database)
    (tr : List (String × ReplicationConfig)) (er : Option ε)
    (hrun : ReplicateHost env localDbs remoteDbs = some (ds, tr, er)) :
    (env.conf.Push = true →
      (∀ db ∈ ds, db ∈ localDbs) ∧
      ∀ req ∈ tr, ∃ db ∈ localDbs,
        req.2.Source = db.Name ∧ req.2.Target = env.remoteUrl db.Name)
    ∧ (env.conf.Push = false →
      (∀ db ∈ ds, db ∈ remoteDbs) ∧
      ∀ req ∈ tr, ∃ db ∈ remoteDbs,
        req.2.Source = env.remoteUrl db.Name ∧ req.2.Target = db.Name) := by
  unfold ReplicateHost at hrun
  constructor
  · intro hpush
    rw [show masterDatabases env.conf localDbs remoteDbs = localDbs from by
      simp [masterDatabases, hpush]] at hrun
    constructor
    · exact fun db hdb => (loop_processed_origin env _ ds tr er hrun db hdb).1
    · intro req hreq
      obtain ⟨db, hdb, hc⟩ := loop_trace_origin env _ ds tr er hrun req hreq
      have hshape : ∃ c, mergedConf env db.Name = some c ∧ req = (c.path, c) := by
        rcases hc with hc | ⟨e, hc⟩
        · obtain ⟨_, _, c, hm, hr, _⟩ := dbStep_submitted_shape env db req hc
          exact ⟨c, hm, hr⟩
        · obtain ⟨_, _, c, hm, hr, _⟩ := dbStep_failed_shape env db req e hc
          exact ⟨c, hm, hr⟩
      obtain ⟨c, hm, hr⟩ := hshape
      have hfields := mergedConf_fields env db.Name c hm
      have hdes := desiredConf_fields_push env db.Name hpush
      refine ⟨db, hdb, ?_, ?_⟩
      · rw [hr]
        show c.Source = db.Name
        rw [hfields.1, hdes.1]
      · rw [hr]
        show c.Target = env.remoteUrl db.Name
        rw [hfields.2, hdes.2]
  · intro hpull
    rw [show masterDatabases env.conf localDbs remoteDbs = remoteDbs from by
      simp [masterDatabases, hpull]] at hrun
    constructor
    · exact fun db hdb => (loop_processed_origin env _ ds tr er hrun db hdb).1
    · intro req hreq
      obtain ⟨db, hdb, hc⟩ := loop_trace_origin env _ ds tr er hrun req hreq
      have hshape : ∃ c, mergedConf env db.Name = some c ∧ req = (c.path, c) := by
        rcases hc with hc | ⟨e, hc⟩
        · obtain ⟨_, _, c, hm, hr, _⟩ := dbStep_submitted_shape env db req hc
          exact ⟨c, hm, hr⟩
        · obtain ⟨_, _, c, hm, hr, _⟩ := dbStep_failed_shape env db req e hc
          exact ⟨c, hm, hr⟩
      obtain ⟨c, hm, hr⟩ := hshape
      have hfields := mergedConf_fields env db.Name c hm
      have hdes := desiredConf_fields_pull env db.Name hpull
      refine ⟨db, hdb, ?_, ?_⟩
      · rw [hr]
        show c.Source = env.remoteUrl db.Name
        rw [hfields.1, hdes.1]
      · rw [hr]
        show c.Target = db.Name
        rw [hfields.2, hdes.2]

def envW8 : ReconEnv Nat where
  put := fun _ _ => none
  remoteUrl := fun n => "r/" ++ n
  sess := {}
  registry := []
  conf := { Push := false }

def w8conf : ReplicationConfig := { desiredConf envW8 "rdb" with REV := "" }

def w8db : Database := { Name := "rdb" }

theorem ReplicateHost_push_pull_roles_witness :
    (envW8.conf.Push = true →
      (∀ db ∈ [w8db], db ∈ ([] : List Database)) ∧
      ∀ req ∈ [(w8conf.path, w8conf)], ∃ db ∈ ([] : List Database),
        req.2.Source = db.Name ∧ req.2.Target = envW8.remoteUrl db.Name)
    ∧ (envW8.conf.Push = false →
      (∀ db ∈ [w8db], db ∈ [w8db]) ∧
      ∀ req ∈ [(w8conf.path, w8conf)], ∃ db ∈ [w8db],
        req.2.Source = envW8.remoteUrl db.Name ∧ req.2.Target = db.Name) :=
  ReplicateHost_push_pull_roles envW8 [] [w8db]
    [w8db] [(w8conf.path, w8conf)] none (by decide)

/-! ### Registry construction and the reserved prefix (claims C7, C10) -/

theorem allReplicators_nil : allReplicators [] = [] := rfl

theorem allReplicators_cons (k : String) (l : List Replicator)
    (rest : Replicators) :
    allReplicators ((k, l) :: rest) = l ++ allReplicators rest := rfl

theorem mem_allReplicators_add (r : Replicators) (rep rep' : Replicator) :
    rep' ∈ allReplicators (Replicators.add r rep) ↔
      rep' ∈ allReplicators r ∨ rep' = rep := by
  induction r with
  | nil => simp [Replicators.add, allReplicators]
  | cons g rest ih =>
    obtain ⟨k, l⟩ := g
    by_cases hk : k = rep.ReplicationId
    · rw [show Replicators.add ((k, l) :: rest) rep = (k, l ++ [rep]) :: rest from
        by simp [Replicators.add, hk]]
      rw [allReplicators_cons, allReplicators_cons]
      simp only [List.mem_append, List.mem_singleton]
      tauto
    · rw [show Replicators.add ((k, l) :: rest) rep =
          (k, l) :: Replicators.add rest rep from by simp [Replicators.add, hk]]
      rw [allReplicators_cons, allReplicators_cons]
      simp only [List.mem_append, ih]
      tauto

theorem mem_allReplicators_build (rows : List DocRow) (acc : Replicators)
    (rep : Replicator) :
    rep ∈ allReplicators (rows.foldl (fun acc row =>
        if 0 < row.Id.length ∧ row.Id.front = '_' then acc
        else Replicators.add acc row.doc) acc) ↔
      rep ∈ allReplicators acc ∨
        ∃ row ∈ rows, ¬(0 < row.Id.length ∧ row.Id.front = '_') ∧ row.doc = rep := by
  induction rows generalizing acc with
  | nil => simp
  | cons row rest ih =>
    rw [List.foldl_cons]
    by_cases hrow : 0 < row.Id.length ∧ row.Id.front = '_'
    · rw [if_pos hrow, ih]
      simp only [List.mem_cons]
      constructor
      · rintro (h | ⟨r, hr, hk, hd⟩)
        · exact Or.inl h
        · exact Or.inr ⟨r, Or.inr hr, hk, hd⟩
      · rintro (h | ⟨r, hr | hr, hk, hd⟩)
        · exact Or.inl h
        · subst hr
          exact absurd hrow hk
        · exact Or.inr ⟨r, hr, hk, hd⟩
    · rw [if_neg hrow, ih]
      simp only [mem_allReplicators_add, List.mem_cons]
      constructor
      · rintro (⟨h | h⟩ | ⟨r, hr, hk, hd⟩)
        · exact Or.inl h
        · exact Or.inr ⟨row, Or.inl rfl, hrow, h.symm⟩
        · exact Or.inr ⟨r, Or.inr hr, hk, hd⟩
      · rintro (h | ⟨r, hr | hr, hk, hd⟩)
        · exact Or.inl (Or.inl h)
        · subst hr
          exact Or.inl (Or.inr hd.symm)
        · exact Or.inr ⟨r, hr, hk, hd⟩

theorem add_group_key (r : Replicators) (rep : Replicator)
    (hr : ∀ k l, (k, l) ∈ r → ∀ x ∈ l, x.ReplicationId = k) :
    ∀ k l, (k, l) ∈ Replicators.add r rep → ∀ x ∈ l, x.ReplicationId = k := by
  induction r with
  | nil =>
    intro k l hkl x hx
    simp only [Replicators.add, List.mem_singleton, Prod.mk.injEq] at hkl
    obtain ⟨hk, hl⟩ := hkl
    subst hk
    subst hl
    simp only [List.mem_singleton] at hx
    subst hx
    rfl
  | cons g rest ih =>
    obtain ⟨k0, l0⟩ := g
    intro k l hkl x hx
    by_cases hk0 : k0 = rep.ReplicationId
    · rw [show Replicators.add ((k0, l0) :: rest) rep =
          (k0, l0 ++ [rep]) :: rest from by simp [Replicators.add, hk0]] at hkl
      rcases List.mem_cons.mp hkl with hkl | hkl
      · rw [Prod.mk.injEq] at hkl
        obtain ⟨hk, hl⟩ := hkl
        subst hk
        subst hl
        rcases List.mem_append.mp hx with hx | hx
        · exact hr k l0 (List.mem_cons_self _ _) x hx
        · simp only [List.mem_singleton] at hx
          subst hx
          exact hk0.symm
      · exact hr k l (List.mem_cons_of_mem _ hkl) x hx
    · rw [show Replicators.add ((k0, l0) :: rest) rep =
          (k0, l0) :: Replicators.add rest rep from
            by simp [Replicators.add, hk0]] at hkl
      rcases List.mem_cons.mp hkl with hkl | hkl
      · rw [Prod.mk.injEq] at hkl
        obtain ⟨hk, hl⟩ := hkl
        subst hk
        subst hl
        exact hr k l (List.mem_cons_self _ _) x hx
      · exact ih (fun k' l' hm => hr k' l' (List.mem_cons_of_mem _ hm)) k l hkl x hx

theorem build_group_key (rows : List DocRow) (acc : Replicators)
    (hacc : ∀ k l, (k, l) ∈ acc → ∀ x ∈ l, x.ReplicationId = k) :
    ∀ k l, (k, l) ∈ rows.foldl (fun acc row =>
        if 0 < row.Id.length ∧ row.Id.front = '_' then acc
        else Replicators.add acc row.doc) acc →
      ∀ x ∈ l, x.ReplicationId = k := by
  induction rows generalizing acc with
  | nil => exact hacc
  | cons row rest ih =>
    rw [List.foldl_cons]
    by_cases hrow : 0 < row.Id.length ∧ row.Id.front = '_'
    · rw [if_pos hrow]
      exact ih acc hacc
    · rw [if_neg hrow]
      exact ih (Replicators.add acc row.doc) (add_group_key acc row.doc hacc)

/-- Claim C7: the registry built from a directive listing contains
exactly the documents of the rows whose id does not start with the
reserved `'_'` prefix, grouped under their `ReplicationId`; and a
reconciliation run never processes or submits a directive for a database
whose name starts with `'_'` — every processed database and every issued
request stems from a database with a nonempty, non-reserved name. -/
theorem reserved_underscore_filtering (env : ReconEnv ε)
    (localDbs remoteDbs ds : List Database)
    (tr : List (String × ReplicationConfig)) (er : Option ε)
    (docs : replicatorDocs) (rep : Replicator)
    (hrun : ReplicateHost env localDbs remoteDbs = some (ds, tr, er)) :
    (rep ∈ allReplicators docs.Replicators ↔
      ∃ row ∈ docs.Rows, ¬(0 < row.Id.length ∧ row.Id.front = '_') ∧ row.doc = rep)
    ∧ (∀ k l, (k, l) ∈ docs.Replicators → ∀ x ∈ l, x.ReplicationId = k)
    ∧ (∀ db ∈ ds, db.Name ≠ "" ∧ db.Name.front ≠ '_')
    ∧ (∀ req ∈ tr, ∃ db ∈ masterDatabases env.conf localDbs remoteDbs,
        db.Name ≠ "" ∧ db.Name.front ≠ '_' ∧
          req.2.ID = (desiredConf env db.Name).ID) := by
  refine ⟨?_, ?_, ?_, ?_⟩
  · unfold replicatorDocs.Replicators
    rw [mem_allReplicators_build]
    simp [allReplicators]
  · exact build_group_key docs.Rows [] (by simp)
  · intro db hdb
    unfold ReplicateHost at hrun
    obtain ⟨_, req, _, hsub⟩ := loop_processed_origin env _ ds tr er hrun db hdb
    obtain ⟨h1, h2, _⟩ := dbStep_submitted_shape env db req hsub
    exact ⟨h1, h2⟩
  · intro req hreq
    unfold ReplicateHost at hrun
    obtain ⟨db, hdb, hc⟩ := loop_trace_origin env _ ds tr er hrun req hreq
    rcases hc with hc | ⟨e, hc⟩
    · obtain ⟨h1, h2, c, hm, hr, _⟩ := dbStep_submitted_shape env db req hc
      refine ⟨db, hdb, h1, h2, ?_⟩
      rw [hr]
      exact mergedConf_ID env db.Name c hm
    · obtain ⟨h1, h2, c, hm, hr, _⟩ := dbStep_failed_shape env db req e hc
      refine ⟨db, hdb, h1, h2, ?_⟩
      rw [hr]
      exact mergedConf_ID env db.Name c hm

def w7repA : Replicator := { ID := "_design/a", ReplicationId := "g1" }

def w7repB : Replicator := { ID := "b1", ReplicationId := "g1" }

def w7docs : replicatorDocs :=
  { Rows := [{ Id := "_design/a", doc := w7repA }, { Id := "b1", doc := w7repB }] }

theorem reserved_underscore_filtering_witness :
    (w7repB ∈ allReplicators w7docs.Replicators ↔
      ∃ row ∈ w7docs.Rows, ¬(0 < row.Id.length ∧ row.Id.front = '_') ∧
        row.doc = w7repB)
    ∧ (∀ k l, (k, l) ∈ w7docs.Replicators → ∀ x ∈ l, x.ReplicationId = k)
    ∧ (∀ db ∈ w1ds, db.Name ≠ "" ∧ db.Name.front ≠ '_')
    ∧ (∀ req ∈ w1tr, ∃ db ∈ masterDatabases envW1.conf
        [{ Name := "adb" }, { Name := "bdb" }] [],
        db.Name ≠ "" ∧ db.Name.front ≠ '_' ∧
          req.2.ID = (desiredConf envW1 db.Name).ID) :=
  reserved_underscore_filtering envW1 [{ Name := "adb" }, { Name := "bdb" }] []
    w1ds w1tr none w7docs w7repB (by decide)

def envW10 : ReconEnv Nat where
  put := fun _ _ => none
  remoteUrl := fun n => "u/" ++ n
  sess := {}
  registry := []
  conf := { Push := true }

/-- Claim C10: the two reserved-prefix filters differ on empty
identifiers.  The listing filter guards with a length check, so a row
with an empty id is kept in the registry; the database-name check in
`ReplicateHost` indexes the first byte without a guard, so the run is
totally defined only when every listed name is nonempty, and an empty
name reaches the out-of-range branch (modelled as result `none`). -/
theorem ReplicateHost_empty_name_partiality (env : ReconEnv ε)
    (localDbs remoteDbs : List Database) (docs : replicatorDocs) :
    ((∀ db ∈ masterDatabases env.conf localDbs remoteDbs, db.Name ≠ "") →
      ∃ out, ReplicateHost env localDbs remoteDbs = some out)
    ∧ ReplicateHost envW10 [{ Name := "" }] [] = none
    ∧ (∀ row ∈ docs.Rows, row.Id = "" →
        row.doc ∈ allReplicators docs.Replicators) := by
  refine ⟨fun hne => loop_total env _ hne, by decide, ?_⟩
  intro row hrow hid
  unfold replicatorDocs.Replicators
  rw [mem_allReplicators_build]
  refine Or.inr ⟨row, hrow, ?_, rfl⟩
  simp [hid]

def w10docs : replicatorDocs :=
  { Rows := [{ Id := "", doc := w7repB }] }

theorem ReplicateHost_empty_name_partiality_witness :
    (∃ out, ReplicateHost envW10 [{ Name := "w" }] [] = some out)
    ∧ ReplicateHost envW10 [{ Name := "" }] [] = none
    ∧ (∀ row ∈ w10docs.Rows, row.Id = "" →
        row.doc ∈ allReplicators w10docs.Replicators) :=
  ⟨(ReplicateHost_empty_name_partiality envW10 [{ Name := "w" }] [] w10docs).1
      (by decide),
    (ReplicateHost_empty_name_partiality envW10 [{ Name := "w" }] [] w10docs).2.1,
    (ReplicateHost_empty_name_partiality envW10 [{ Name := "w" }] [] w10docs).2.2⟩

/-! ### Idempotent reconciliation (claim C6) -/

theorem desiredConf_congr (env1 env2 : ReconEnv ε)
    (hurl : env2.remoteUrl = env1.remoteUrl) (hsess : env2.sess = env1.sess)
    (hconf : env2.conf = env1.conf) (n : String) :
    desiredConf env2 n = desiredConf env1 n := by
  simp [desiredConf, hurl, hsess, hconf]

/-- Claim C6: reconciling the same database set a second time (same
direction, locator and session; a registry that now also holds every
directive the first, fully successful run submitted, with every record
of the first registry still present) computes the same ids, finds each
of them in the second registry, and lets every second-run submission take
the update path — carrying the found record's revision — never creating
a directive under an id unknown to the first run. -/
theorem ReplicateHost_idempotent_second_run (env1 env2 : ReconEnv ε)
    (localDbs remoteDbs p1 : List Database)
    (t1 : List (String × ReplicationConfig))
    (hurl : env2.remoteUrl = env1.remoteUrl)
    (hsess : env2.sess = env1.sess)
    (hconf : env2.conf = env1.conf)
    (hne : ∀ db ∈ masterDatabases env1.conf localDbs remoteDbs, db.Name ≠ "")
    (h1 : ReplicateHost env1 localDbs remoteDbs = some (p1, t1, none))
    (hnew : ∀ req ∈ t1, ∃ ex, Replicators.findById env2.registry req.2.ID = some ex)
    (hpersist : ∀ id ex1, Replicators.findById env1.registry id = some ex1 →
      ∃ ex2, Replicators.findById env2.registry id = some ex2) :
    ∃ p2 t2 er2, ReplicateHost env2 localDbs remoteDbs = some (p2, t2, er2)
      ∧ (∀ req ∈ t2, ∃ ex, Replicators.findById env2.registry req.2.ID = some ex ∧
          req.2.REV = ex.REV)
      ∧ (∀ req ∈ t2, (∃ req1 ∈ t1, req1.2.ID = req.2.ID) ∨
          ∃ ex1, Replicators.findById env1.registry req.2.ID = some ex1)
      ∧ (∀ db ∈ masterDatabases env1.conf localDbs remoteDbs,
          db.Name ≠ "" → db.Name.front ≠ '_' →
          ∃ ex, Replicators.findById env2.registry
            (desiredConf env1 db.Name).ID = some ex) := by
  have hdc : ∀ n, desiredConf env2 n = desiredConf env1 n :=
    desiredConf_congr env1 env2 hurl hsess hconf
  unfold ReplicateHost at h1 ⊢
  rw [show masterDatabases env2.conf localDbs remoteDbs =
      masterDatabases env1.conf localDbs remoteDbs from by rw [hconf]]
  obtain ⟨out2, h2⟩ :=
    loop_total env2 (masterDatabases env1.conf localDbs remoteDbs) hne
  obtain ⟨p2, t2, er2⟩ := out2
  have hcov : ∀ db ∈ masterDatabases env1.conf localDbs remoteDbs,
      db.Name ≠ "" → db.Name.front ≠ '_' →
      ∃ ex, Replicators.findById env2.registry
        (desiredConf env1 db.Name).ID = some ex := by
    intro db hdb hn1 hn2
    rcases loop_coverage env1 _ p1 t1 h1 db hdb with hskip | ⟨req1, hreq1, hsub1⟩
    · obtain ⟨ex1, hf1, _⟩ := dbStep_skipped_valid env1 db hn1 hn2 hskip
      exact hpersist _ ex1 hf1
    · obtain ⟨_, _, c1, hm1, hr1, _⟩ := dbStep_submitted_shape env1 db req1 hsub1
      obtain ⟨ex2, hf2⟩ := hnew req1 hreq1
      have hq : req1.2 = c1 := by rw [hr1]
      rw [hq, mergedConf_ID env1 db.Name c1 hm1] at hf2
      exact ⟨ex2, hf2⟩
  refine ⟨p2, t2, er2, h2, ?_, ?_, hcov⟩
  · intro req hreq
    obtain ⟨db, hdb, hc⟩ := loop_trace_origin env2 _ p2 t2 er2 h2 req hreq
    have hshape : db.Name ≠ "" ∧ db.Name.front ≠ '_' ∧
        ∃ c, mergedConf env2 db.Name = some c ∧ req = (c.path, c) := by
      rcases hc with hc | ⟨e, hc⟩
      · obtain ⟨ha, hb, c, hm, hr, _⟩ := dbStep_submitted_shape env2 db req hc
        exact ⟨ha, hb, c, hm, hr⟩
      · obtain ⟨ha, hb, c, hm, hr, _⟩ := dbStep_failed_shape env2 db req e hc
        exact ⟨ha, hb, c, hm, hr⟩
    obtain ⟨hn1, hn2, c, hm, hr⟩ := hshape
    have hq : req.2 = c := by rw [hr]
    have hid : c.ID = (desiredConf env2 db.Name).ID := mergedConf_ID env2 db.Name c hm
    rcases mergedConf_spec env2 db.Name c hm with ⟨ex, hf, hnt, hcc⟩ | ⟨hnone, hcc⟩
    · refine ⟨ex, ?_, ?_⟩
      · rw [hq, hid]
        exact hf
      · rw [hq]
        subst hcc
        rfl
    · exfalso
      obtain ⟨ex2, hf2⟩ := hcov db hdb hn1 hn2
      rw [← hdc db.Name] at hf2
      rw [hnone] at hf2
      exact absurd hf2 (by simp)
  · intro req hreq
    obtain ⟨db, hdb, hc⟩ := loop_trace_origin env2 _ p2 t2 er2 h2 req hreq
    have hshape : db.Name ≠ "" ∧ db.Name.front ≠ '_' ∧
        ∃ c, mergedConf env2 db.Name = some c ∧ req = (c.path, c) := by
      rcases hc with hc | ⟨e, hc⟩
      · obtain ⟨ha, hb, c, hm, hr, _⟩ := dbStep_submitted_shape env2 db req hc
        exact ⟨ha, hb, c, hm, hr⟩
      · obtain ⟨ha, hb, c, hm, hr, _⟩ := dbStep_failed_shape env2 db req e hc
        exact ⟨ha, hb, c, hm, hr⟩
    obtain ⟨hn1, hn2, c, hm, hr⟩ := hshape
    have hq : req.2 = c := by rw [hr]
    have hid2 : c.ID = (desiredConf env1 db.Name).ID := by
      rw [mergedConf_ID env2 db.Name c hm, hdc]
    rcases loop_coverage env1 _ p1 t1 h1 db hdb with hskip | ⟨req1, hreq1, hsub1⟩
    · obtain ⟨ex1, hf1, _⟩ := dbStep_skipped_valid env1 db hn1 hn2 hskip
      right
      refine ⟨ex1, ?_⟩
      rw [hq, hid2]
      exact hf1
    · obtain ⟨_, _, c1, hm1, hr1, _⟩ := dbStep_submitted_shape env1 db req1 hsub1
      left
      refine ⟨req1, hreq1, ?_⟩
      have hq1 : req1.2 = c1 := by rw [hr1]
      rw [hq, hq1, mergedConf_ID env1 db.Name c1 hm1, hid2]

def envW6a : ReconEnv Nat where
  put := fun _ _ => none
  remoteUrl := fun n => "u/" ++ n
  sess := {}
  registry := []
  conf := { Push := true }

/-- The directive created by the first witness run, as the second run's
registry holds it: same id, advanced revision, completed state. -/
def w6rep : Replicator :=
  { ID := md5hex "wdbu/wdb", REV := "2-a", ReplicationState := "completed" }

def envW6b : ReconEnv Nat where
  put := fun _ _ => none
  remoteUrl := fun n => "u/" ++ n
  sess := {}
  registry := [("", [w6rep])]
  conf := { Push := true }

def w6c1 : ReplicationConfig := { desiredConf envW6a "wdb" with REV := "" }

def w6t1 : List (String × ReplicationConfig) := [(w6c1.path, w6c1)]

theorem ReplicateHost_idempotent_second_run_witness :
    ∃ p2 t2 er2, ReplicateHost envW6b [{ Name := "wdb" }] [] = some (p2, t2, er2)
      ∧ (∀ req ∈ t2, ∃ ex, Replicators.findById envW6b.registry req.2.ID = some ex ∧
          req.2.REV = ex.REV)
      ∧ (∀ req ∈ t2, (∃ req1 ∈ w6t1, req1.2.ID = req.2.ID) ∨
          ∃ ex1, Replicators.findById envW6a.registry req.2.ID = some ex1)
      ∧ (∀ db ∈ masterDatabases envW6a.conf [{ Name := "wdb" }] [],
          db.Name ≠ "" → db.Name.front ≠ '_' →
          ∃ ex, Replicators.findById envW6b.registry
            (desiredConf envW6a db.Name).ID = some ex) :=
  ReplicateHost_idempotent_second_run envW6a envW6b [{ Name := "wdb" }] []
    [{ Name := "wdb" }] w6t1 rfl rfl rfl (by decide) (by decide)
    (by
      intro req hreq
      simp only [w6t1, List.mem_singleton] at hreq
      subst hreq
      exact ⟨w6rep, by decide⟩)
    (by
      intro id ex1 h
      simp [Replicators.findById] at h)

/-! ### Deletion flow (claim C9) -/

theorem deleteAllLoop_all_ok (delOne : String → Option ε) (l : List Replicator)
    (h : ∀ x ∈ l, delOne x.ID = none) :
    deleteAllLoop delOne l = (l.map (fun x => x.ID), none) := by
  induction l with
  | nil => rfl
  | cons r rest ih =>
    simp only [deleteAllLoop, h r (List.mem_cons_self r rest),
      ih (fun x hx => h x (List.mem_cons_of_mem r hx)), List.map_cons]

theorem deleteAllLoop_failfast (delOne : String → Option ε)
    (pre : List Replicator) (r : Replicator) (post : List Replicator) (e : ε)
    (hpre : ∀ x ∈ pre, delOne x.ID = none) (hr : delOne r.ID = some e) :
    deleteAllLoop delOne (pre ++ r :: post) =
      (pre.map (fun x => x.ID) ++ [r.ID], some e) := by
  induction pre with
  | nil => simp [deleteAllLoop, hr]
  | cons x pre' ih =>
    have ih' := ih (fun y hy => hpre y (List.mem_cons_of_mem x hy))
    simp only [List.cons_append, deleteAllLoop,
      hpre x (List.mem_cons_self x pre'), List.append_eq, ih', List.map_cons,
      List.cons_append]

/-- Claim C9 as amended: `DeleteAllReplicators` loads the registry and
calls `DeleteReplicator` for every registered replication across every
group in traversal order; `DeleteReplicator` first re-fetches the record
by id (propagating a fetch failure) and then deletes at the fetched
record's id-plus-revision address.  On the first failing deletion the
loop stops at once — no later deletion is attempted — and the function
returns the full registry snapshot loaded before the loop (not merely
the successfully processed subset) together with the triggering error;
when every deletion succeeds it returns that same snapshot with no
error. -/
theorem DeleteAllReplicators_failfast_snapshot
    (fetch : String → Except ε Replicator) (del : String → Option ε)
    (registry : Replicators) :
    (∀ pre r post e, allReplicators registry = pre ++ r :: post →
      (∀ x ∈ pre, DeleteReplicator fetch del x.ID = none) →
      DeleteReplicator fetch del r.ID = some e →
      DeleteAllReplicators fetch del registry =
        (registry, pre.map (fun x => x.ID) ++ [r.ID], some e))
    ∧ ((∀ x ∈ allReplicators registry, DeleteReplicator fetch del x.ID = none) →
      DeleteAllReplicators fetch del registry =
        (registry, (allReplicators registry).map (fun x => x.ID), none))
    ∧ (∀ id rep, fetch id = Except.ok rep →
        DeleteReplicator fetch del id = del rep.path)
    ∧ (∀ id e, fetch id = Except.error e →
        DeleteReplicator fetch del id = some e) := by
  refine ⟨?_, ?_, ?_, ?_⟩
  · intro pre r post e hsplit hpre hr
    unfold DeleteAllReplicators
    rw [hsplit, deleteAllLoop_failfast (DeleteReplicator fetch del) pre r post e hpre hr]
  · intro hok
    unfold DeleteAllReplicators
    rw [deleteAllLoop_all_ok (DeleteReplicator fetch del) _ hok]
  · intro id rep h
    unfold DeleteReplicator
    rw [h]
  · intro id e h
    unfold DeleteReplicator
    rw [h]

def w9repA : Replicator := { ID := "d1", ReplicationId := "g" }

def w9repB : Replicator := { ID := "d2", ReplicationId := "g" }

def w9reg : Replicators := [("g", [w9repA, w9repB])]

def w9fetch : String → Except Nat Replicator :=
  fun id => Except.ok { ID := id, REV := "1-r" }

def w9del : String → Option Nat := fun _ => some 3

/-- Claim C9, counterexample: with a two-entry registry whose very first
deletion fails, no entity is successfully processed, yet the returned
collection is the full pre-loaded two-entry registry — not the list of
entities successfully processed up to the failure, which would be
empty. -/
theorem DeleteAllReplicators_partial_cex :
    DeleteAllReplicators w9fetch w9del w9reg = (w9reg, ["d1"], some 3)
    ∧ (∀ x ∈ allReplicators w9reg, DeleteReplicator w9fetch w9del x.ID ≠ none)
    ∧ (allReplicators w9reg).length = 2 := by decide

theorem DeleteAllReplicators_failfast_snapshot_witness :
    DeleteAllReplicators w9fetch w9del w9reg = (w9reg, ["d1"], some 3) :=
  (DeleteAllReplicators_failfast_snapshot w9fetch w9del w9reg).1
    [] w9repA [w9repB] 3 rfl (by simp) (by decide)
